import Mathlib

/-!
A shallow embedding of `khp/contacts.py`: the incremental contacts/transcripts
pipeline (chunked fetcher, artifact reconcilers, transform-driven parsers,
bulk-load adapters, enhancement chain, and the top-level `main` driver).
External collaborators (the Icescape API client, the postgrez storage client,
the configurable `Transformer`) are passed in as function parameters; their
calls and every other side effect (file saves, table loads, log lines) are
recorded explicitly so that theorems can speak about the traces.
-/

namespace Khp

/-! ## Scalar cell values

Python scalar values that can appear in a record or a load row: strings,
integers, booleans, the floating NaN sentinel, and `None` (also standing for
SQL NULL). -/

inductive Value where
  | str (s : String)
  | int (n : Int)
  | bool (b : Bool)
  | nan
  | none
deriving DecidableEq, Repr

/-- A Python dict with string keys, modelled as an insertion-ordered
association list (keys unique in every dict the program builds). -/
abbrev Record := List (String × Value)

/-- Python `d[key]` as an `Option`: the value at the first matching key. -/
def lookupKey : Record → String → Option Value
  | [], _ => Option.none
  | (k, v) :: r, key => if k = key then some v else lookupKey r key

/-- Python `d[key]` where the key is known to be present (defaults to
`Value.none` otherwise, which never happens on the program's own dicts). -/
def dictGet (r : Record) (key : String) : Value :=
  (lookupKey r key).getD Value.none

/-- Python `d[key] = v`: overwrite the value at an existing key in place,
or append a fresh `(key, v)` entry at the end. -/
def setKey (r : Record) (key : String) (v : Value) : Record :=
  if r.any (fun p => p.1 = key) then
    r.map (fun p => if p.1 = key then (key, v) else p)
  else r ++ [(key, v)]

/-- Python `list(d.keys())`. -/
def keysOf (r : Record) : List String := r.map Prod.fst

/-! ## Contacts reconciler (`get_contacts_to_load`, contacts.py:172-187)

The query collects the distinct `load_file` values already persisted in the
`contacts` relation (`loaded`); `utils.search_path` lists the on-disk files
whose basename matches the contacts filename pattern (the pattern test is the
`matches` parameter, applied by the out-of-repo `utils.search_path`); the
result is `list(set(filenames) - set(loaded_files))` — a set difference,
modelled as a `Finset`. -/

def get_contacts_to_load (pat : String → Bool) (loaded : List String)
    (diskFiles : List String) : Finset String :=
  (diskFiles.filter pat).toFinset \ loaded.toFinset

/-! ## Transcripts reconciler (`get_transcripts_to_load`, contacts.py:189-211) -/

/-- The longest run of decimal digits at the start of a filename. -/
def leadingDigits (f : String) : List Char := f.data.takeWhile Char.isDigit

/-- Modelled from the spec: `utils.search_path` with the regex
`^\d*_data.txt` keeps the on-disk files "matching pattern `^<digits>_data.txt`"
— a non-empty run of digits followed by the literal suffix `_data.txt`. -/
def matchesTranscriptPattern (f : String) : Bool :=
  !(leadingDigits f).isEmpty &&
    (f.data.dropWhile Char.isDigit = "_data.txt".data)

/-- `int(basename.split('_data.txt')[0])`: the numeric value of the digit run
before the `_data.txt` suffix. -/
def fileContactId (f : String) : Int :=
  Int.ofNat ((leadingDigits f).foldl (fun a c => a * 10 + (c.toNat - 48)) 0)

/-- `get_transcripts_to_load`: among the pattern-matching on-disk basenames,
keep those whose parsed contact id is not among the distinct `contact_id`
values already persisted in the `transcripts` relation. -/
def get_transcripts_to_load (loadedIds : List Int) (diskFiles : List String) :
    List String :=
  (diskFiles.filter matchesTranscriptPattern).filter
    (fun f => !(loadedIds.contains (fileContactId f)))

/-! ## Transform-driven parsing and bulk-load adapters -/

/-- `os.path.basename`: the final path component. -/
def basename (p : String) : String := (p.splitOn "/").getLastD ""

/-- `s.split('_')[0]`: the text before the first underscore (the whole
string when no underscore occurs). -/
def firstField (s : String) : String :=
  String.mk (s.data.takeWhile (fun c => c ≠ '_'))

/-- One bulk-load handoff to the storage collaborator:
`postgrez.load(table_name=table, data=rows, columns=columns, ...)`. -/
structure LoadCall where
  table : String
  columns : List String
  rows : List (List Value)
deriving DecidableEq, Repr

/-- `[record[key] for key in columns]`: project a dict onto a column list;
a missing key raises (Python `KeyError`). -/
def projectRow (cols : List String) (r : Record) : Except String (List Value) :=
  cols.mapM (fun k => match lookupKey r k with
    | some v => Except.ok v
    | Option.none => Except.error "KeyError")

/-- The per-contact body of the loop in `parse_contacts_file`
(contacts.py:125-130): run the configured transform pipeline `tf` on the
contact, then set the three extra fields on the resulting dict. -/
def parse_contact_record (tf : Record → Record) (base_file : String)
    (contact : Record) : Record :=
  let contact_data := tf contact
  let contact_data := setKey contact_data "interaction_type"
    (Value.str (firstField base_file))
  let contact_data := setKey contact_data "transcript_downloaded"
    (Value.bool false)
  setKey contact_data "load_file" (Value.str base_file)

/-- Result of `parse_contacts_file`: the log lines it wrote and the load
call it handed to the storage collaborator, if any. -/
structure ParsedFile where
  logs : List String
  load : Option LoadCall
deriving DecidableEq, Repr

/-- `parse_contacts_file` (contacts.py:103-137): read the artifact's contact
list, return early when it is empty, otherwise transform each contact, add
the three extra fields, project all records onto the first record's keys and
load them into the `contacts` relation. -/
def parse_contacts_file (tf : Record → Record) (filename : String)
    (contacts : List Record) : Except String ParsedFile :=
  let base_file := basename filename
  match contacts with
  | [] => Except.ok ⟨["Parsing contact file", "Empty contacts file. Exiting.."],
      Option.none⟩
  | c :: cs =>
    let parsed := (c :: cs).map (parse_contact_record tf base_file)
    let columns := keysOf (parse_contact_record tf base_file c)
    match parsed.mapM (projectRow columns) with
    | Except.error e => Except.error e
    | Except.ok rows =>
        Except.ok ⟨["Parsing contact file"], some ⟨"contacts", columns, rows⟩⟩

/-! ## Transcript parsing (`parse_transcript`, contacts.py:139-169) -/

/-- One transcript payload returned by `Icescape.get_recordings`: the
`Value.ContactID` field the error path reads, plus the rest of the payload. -/
structure Transcript where
  contactID : Int
  body : String
deriving DecidableEq, Repr

/-- Output shape of the `recording` transform pipeline: a dict whose
`messages` entry holds the flattened message dicts. -/
structure TransformOut where
  messages : List Record
deriving DecidableEq, Repr

/-- `record.replace('|', '')`: drop every occurrence of the load-format
delimiter from a string. -/
def stripPipes (s : String) : String := String.mk (s.data.filter (fun c => c ≠ '|'))

/-- The sanitization loop body (contacts.py:162-165): strings lose every
`'|'`; every other value is left as is. -/
def sanitizeValue : Value → Value
  | Value.str s => Value.str (stripPipes s)
  | v => v

/-- `parse_transcript`: run the `recording` transform pipeline on the
transcript, take the `messages` list (indexing its first element — an empty
list raises `IndexError`), project every message onto the first message's
keys, strip the delimiter from every string cell, and load the rows into the
`transcripts` relation. -/
def parse_transcript (tf : Transcript → TransformOut) (transcript : Transcript) :
    Except String LoadCall :=
  match (tf transcript).messages with
  | [] => Except.error "IndexError: list index out of range"
  | m :: rest =>
    let columns := keysOf m
    match (m :: rest).mapM (projectRow columns) with
    | Except.error e => Except.error e
    | Except.ok rows =>
        Except.ok ⟨"transcripts", columns,
          rows.map (fun row => row.map sanitizeValue)⟩

/-- A value is free of the load-format delimiter. -/
def noPipe : Value → Bool
  | Value.str s => !s.data.contains '|'
  | _ => true

/-! ## Enhanced-transcript loading (contacts.py:233-261) -/

/-- `load_enhanced_transcript`: prepend the contact id to the summary's
values and load the single row into `enhanced_transcripts` — note: no
delimiter sanitization happens here. -/
def load_enhanced_transcript (contact_id : Int) (summary : Record) : LoadCall :=
  ⟨"enhanced_transcripts", "contact_id" :: keysOf summary,
    [Value.int contact_id :: (keysOf summary).map (dictGet summary)]⟩

/-- `pd.isnull` on the values the summary can hold: true exactly on the NaN
sentinel and on `None`. -/
def isnull : Value → Bool
  | Value.nan => true
  | Value.none => true
  | _ => false

/-- `replace_nans`: replace every null/undefined value of the summary dict
with `None`; all other entries stay as they are. -/
def replace_nans (summary : Record) : Record :=
  summary.map (fun p => if isnull p.2 then (p.1, Value.none) else p)

/-! ## Chunked fetcher: `download_transcripts` (contacts.py:59-101)

The remote client, the file writes, the batched marker updates and the log
lines are recorded as an explicit event trace, in program order. -/

inductive Ev where
  | call (chunk : List Int)
  | save (filename : String) (transcript : Transcript)
  | update (chunk : List Int)
  | logMissing (missing : List Int)
  | logMsg (msg : String)
deriving DecidableEq, Repr

/-- Modelled from the spec: `utils.chunker` is out of the provided sources;
per the spec, "input identifiers are split into fixed-size chunks (chunk
size = 20)" — successive slices of `n` elements, the last one possibly
shorter. -/
def chunker {α : Type} (l : List α) (n : Nat) : List (List α) :=
  if h : l.isEmpty ∨ n = 0 then [] else l.take n :: chunker (l.drop n) n
termination_by l.length
decreasing_by
  rcases not_or.mp h with ⟨h1, h2⟩
  have hne : l ≠ [] := by simpa using h1
  have hl : 0 < l.length := List.length_pos.mpr hne
  simp only [List.length_drop]
  omega

/-- `"{}_data.txt".format(contact_id)`. -/
def idFileName (id : Int) : String := toString id ++ "_data.txt"

/-- The per-chunk save loop (contacts.py:91-93): the i-th returned transcript
is saved under the i-th requested identifier's filename, purely by position. -/
def saveEvents (chunk : List Int) (ts : List Transcript) : List Ev :=
  List.zipWith (fun id t => Ev.save (idFileName id) t) chunk ts

/-- Closed form of one successful chunk's trace: the remote call, then every
artifact save, then the single batched marker update for the chunk. -/
def chunkEvents (oracle : List Int → List Transcript) (chunk : List Int) :
    List Ev :=
  Ev.call chunk :: (saveEvents chunk (oracle chunk) ++ [Ev.update chunk])

/-- The chunk loop of `download_transcripts` (contacts.py:83-101): call the
remote client per chunk; if it returns fewer transcripts than requested,
log the set difference of missing identifiers and raise; otherwise save each
transcript positionally and mark the whole chunk downloaded in one batched
update, then move to the next chunk. -/
def processChunks (oracle : List Int → List Transcript) :
    List (List Int) → List Ev × Option String
  | [] => ([], Option.none)
  | chunk :: rest =>
    let ts := oracle chunk
    if ts.length < chunk.length then
      let retrieved := ts.map Transcript.contactID
      ([Ev.call chunk,
        Ev.logMissing (chunk.filter (fun id => !retrieved.contains id))],
        some "Transcripts not returned for all contact ids")
    else
      let r := processChunks oracle rest
      (Ev.call chunk :: (saveEvents chunk ts ++ [Ev.update chunk] ++ r.1), r.2)

/-- `download_transcripts` on an explicit identifier list: empty input logs
and returns; otherwise the list is chunked (size 20) and processed. -/
def download_transcripts (oracle : List Int → List Transcript)
    (contact_ids : List Int) : List Ev × Option String :=
  if contact_ids.isEmpty then
    ([Ev.logMsg "No contact ids to parse. Exiting.."], Option.none)
  else
    let r := processChunks oracle (chunker contact_ids 20)
    (Ev.logMsg "Attempting to process contact ids" :: r.1, r.2)

/-- The remote calls recorded in a trace, in order. -/
def callsOf (evs : List Ev) : List (List Int) :=
  evs.filterMap (fun e => match e with
    | Ev.call c => some c
    | _ => Option.none)

/-- The batched marker updates recorded in a trace, in order. -/
def updatesOf (evs : List Ev) : List (List Int) :=
  evs.filterMap (fun e => match e with
    | Ev.update c => some c
    | _ => Option.none)

/-- The artifact saves recorded in a trace, in order. -/
def savesOf (evs : List Ev) : List (String × Transcript) :=
  evs.filterMap (fun e => match e with
    | Ev.save f t => some (f, t)
    | _ => Option.none)

/-! ## Chunked fetcher: `download_contacts` (contacts.py:28-57) -/

/-- Milliseconds in one day; days are modelled as day ordinals and instants
as milliseconds since the epoch. -/
def msPerDay : Nat := 86400000

/-- One `Icescape.get_contacts` call with its day window. -/
structure ContactsCall where
  itype : String
  startMs : Nat
  endMs : Nat
deriving DecidableEq, Repr

/-- Modelled from the spec: `utils.generate_date_range` is out of the
provided sources; per the spec, a start/end range "is split into whole-day
windows", one per calendar day, both endpoints included. -/
def generate_date_range (startDay endDay : Nat) : List Nat :=
  List.range' startDay (endDay + 1 - startDay)

/-- `"{}_{}_contacts.txt".format(interaction_type, date)`. -/
def contactsFileName (itype : String) (day : Nat) : String :=
  itype ++ "_" ++ toString day ++ "_contacts.txt"

/-- The explicit-range branch of `download_contacts` (contacts.py:42-51):
for each day of the range, one remote call with the window
`[start_of_day, start_of_next_day - 1ms]` and one saved artifact named
`{type}_{date}_contacts`. -/
def download_contacts {α : Type} (get : String → Nat → Nat → α)
    (itype : String) (startDay endDay : Nat) :
    List (ContactsCall × (String × α)) :=
  (generate_date_range startDay endDay).map (fun d =>
    (⟨itype, d * msPerDay, d * msPerDay + msPerDay - 1⟩,
      (contactsFileName itype d,
        get itype (d * msPerDay) (d * msPerDay + msPerDay - 1))))

/-! ## The full pipeline (`main`, contacts.py:294-337)

The world state carries the artifact directory and the three durable
relations; each stage records its name in `ran` when it completes. The
external collaborators live in `Env`. A Python exception is an
`Except.error`. -/

inductive Artifact where
  | contactsData (recs : List Record)
  | transcriptData (t : Transcript)
deriving DecidableEq, Repr

structure Env where
  getContacts : String → Nat → Nat → List Record
  getRecordings : List Int → List Transcript
  contactsPat : String → Bool
  tfContacts : Record → Record
  tfRecording : Transcript → TransformOut
  tfDf : List Record → List Record
  tfMeta : List Record → Record
  today : Nat

structure World where
  disk : List (String × Artifact)
  contacts : List Record
  transcripts : List Record
  enhanced : List Record
  ran : List String
deriving DecidableEq, Repr

/-- Rows of a bulk-load call, re-read as named records of the target
relation (what `postgrez.load` persists). -/
def rowsToRecords (lc : LoadCall) : List Record :=
  lc.rows.map (fun row => lc.columns.zip row)

def valueStr : Value → Option String
  | Value.str s => some s
  | _ => Option.none

def valueInt : Value → Option Int
  | Value.int n => some n
  | _ => Option.none

/-- `SELECT load_file FROM contacts GROUP BY 1` (the set-difference in
`get_contacts_to_load` makes the duplicates irrelevant). -/
def loadFileValues (contacts : List Record) : List String :=
  contacts.filterMap (fun r => valueStr (dictGet r "load_file"))

/-- `SELECT contact_id FROM <rows> GROUP BY 1`, kept in appearance order. -/
def contactIdValues (rows : List Record) : List Int :=
  (rows.filterMap (fun r => valueInt (dictGet r "contact_id"))).dedup

/-- The download-contacts stage of `main` (contacts.py:316): save one
artifact per day of the range. -/
def downloadContactsStage (env : Env) (itype : String) (sd ed : Nat)
    (w : World) : World :=
  { w with
      disk := w.disk ++ (download_contacts env.getContacts itype sd ed).map
        (fun p => (p.2.1, Artifact.contactsData p.2.2)),
      ran := w.ran ++ ["download_contacts"] }

/-- `utils.read_jason` on a contacts artifact; a non-contacts artifact never
reaches this point in the program's own flow and reads as empty. -/
def readContactsArtifact (w : World) (name : String) : List Record :=
  match w.disk.find? (fun p => p.1 = name) with
  | some (_, Artifact.contactsData recs) => recs
  | _ => []

/-- The pending contacts artifacts, iterated in directory order (Python
iterates the reconciler's set in unspecified order). -/
def contactsFilesToLoad (env : Env) (w : World) : List String :=
  (w.disk.map Prod.fst).filter
    (fun f => f ∈ get_contacts_to_load env.contactsPat (loadFileValues w.contacts)
      (w.disk.map Prod.fst))

/-- One iteration of the contacts-loading loop: parse the artifact and load
its rows into the `contacts` relation; an exception aborts the loop. -/
def contactsLoadStep (env : Env) (w : World) (acc : Except String World)
    (file : String) : Except String World :=
  match acc with
  | Except.error e => Except.error e
  | Except.ok wa =>
    match parse_contacts_file env.tfContacts file (readContactsArtifact w file) with
    | Except.error e => Except.error e
    | Except.ok pf =>
      match pf.load with
      | Option.none => Except.ok wa
      | some lc => Except.ok { wa with contacts := wa.contacts ++ rowsToRecords lc }

/-- The contacts-loading stage of `main` (contacts.py:319-322): reconcile,
then parse and load every pending contacts artifact. -/
def contactsLoadingStage (env : Env) (w : World) : Except String World :=
  ((contactsFilesToLoad env w).foldl (contactsLoadStep env w)
      (Except.ok w)).map
    (fun wa => { wa with ran := wa.ran ++ ["contacts_loading"] })

/-- `SELECT contact_id FROM contacts WHERE transcript_downloaded=FALSE AND
agent_id IS NOT NULL`. -/
def pendingTranscriptIds (contacts : List Record) : List Int :=
  contacts.filterMap (fun r =>
    if dictGet r "transcript_downloaded" = Value.bool false ∧
        lookupKey r "agent_id" ≠ some Value.none ∧
        lookupKey r "agent_id" ≠ Option.none then
      valueInt (dictGet r "contact_id")
    else Option.none)

/-- Apply one recorded fetcher event to the world: a save writes the
transcript artifact; a batched update sets `transcript_downloaded=TRUE` on
every contact row whose id is in the chunk. -/
def applyEv (w : World) (e : Ev) : World :=
  match e with
  | Ev.save f t => { w with disk := w.disk ++ [(f, Artifact.transcriptData t)] }
  | Ev.update c => { w with contacts := w.contacts.map (fun r =>
      match valueInt (dictGet r "contact_id") with
      | some n =>
          if c.contains n then setKey r "transcript_downloaded" (Value.bool true)
          else r
      | Option.none => r) }
  | _ => w

/-- The transcript-download stage of `main` (contacts.py:328). -/
def downloadTranscriptsStage (env : Env) (w : World) : Except String World :=
  let r := download_transcripts env.getRecordings (pendingTranscriptIds w.contacts)
  let w2 := r.1.foldl applyEv w
  match r.2 with
  | some e => Except.error e
  | Option.none => Except.ok { w2 with ran := w2.ran ++ ["download_transcripts"] }

/-- `utils.read_jason` on a transcript artifact. -/
def readTranscriptArtifact (w : World) (name : String) : Option Transcript :=
  match w.disk.find? (fun p => p.1 = name) with
  | some (_, Artifact.transcriptData t) => some t
  | _ => Option.none

/-- One iteration of the transcripts-loading loop. -/
def transcriptsLoadStep (env : Env) (w : World) (acc : Except String World)
    (file : String) : Except String World :=
  match acc with
  | Except.error e => Except.error e
  | Except.ok wa =>
    match readTranscriptArtifact w file with
    | Option.none => Except.error "read error"
    | some t =>
      match parse_transcript env.tfRecording t with
      | Except.error e => Except.error e
      | Except.ok lc =>
          Except.ok { wa with transcripts := wa.transcripts ++ rowsToRecords lc }

/-- The transcripts-loading stage of `main` (contacts.py:331-334). -/
def transcriptsLoadingStage (env : Env) (w : World) : Except String World :=
  ((get_transcripts_to_load (contactIdValues w.transcripts)
        (w.disk.map Prod.fst)).foldl (transcriptsLoadStep env w)
      (Except.ok w)).map
    (fun wa => { wa with ran := wa.ran ++ ["transcripts_loading"] })

/-- The per-contact enhancement chain (contacts.py:283-290), sequentialized:
load the contact's transcript rows, run the tabular transforms and the
summary meta-transform, replace the NaNs, and load the summary row. -/
def enhanceStep (env : Env) (wa : World) (cid : Int) : World :=
  let df := wa.transcripts.filter
    (fun r => valueInt (dictGet r "contact_id") = some cid)
  let summary := replace_nans (env.tfMeta (env.tfDf df))
  { wa with enhanced := wa.enhanced ++ rowsToRecords (load_enhanced_transcript cid summary) }

/-- The enhancement stage of `main` (`enhanced_transcripts`,
contacts.py:263-292): one chain per contact id present in `transcripts` but
absent from `enhanced_transcripts`. -/
def enhanceStage (env : Env) (w : World) : World :=
  let toLoad := (contactIdValues w.transcripts).filter
    (fun id => !(contactIdValues w.enhanced).contains id)
  let w2 := toLoad.foldl (enhanceStep env) w
  { w2 with ran := w2.ran ++ ["enhanced_transcripts"] }

/-- `main` (contacts.py:294-337): default both dates to yesterday when both
are missing; return with a warning when only one is given; then run
download-contacts and contacts-loading; for any interaction type other than
`IM`, return there; otherwise run the three transcript stages. -/
def main (env : Env) (itype : String) (sd ed : Option Nat) (w : World) :
    Except String World :=
  let dates := match sd, ed with
    | Option.none, Option.none => (some (env.today - 1), some (env.today - 1))
    | a, b => (a, b)
  match dates with
  | (some s, some e) =>
    let w1 := downloadContactsStage env itype s e w
    match contactsLoadingStage env w1 with
    | Except.error msg => Except.error msg
    | Except.ok w2 =>
      if itype = "IM" then
        match downloadTranscriptsStage env w2 with
        | Except.error msg => Except.error msg
        | Except.ok w3 =>
          match transcriptsLoadingStage env w3 with
          | Except.error msg => Except.error msg
          | Except.ok w4 => Except.ok (enhanceStage env w4)
      else Except.ok w2
  | _ => Except.ok w

/-! ## Concrete collaborators used to exercise the model -/

def tfId : Record → Record := fun r => r

/-- A remote client that answers every chunk completely and in order. -/
def oracleEcho : List Int → List Transcript := fun c => c.map (fun i => ⟨i, "m"⟩)

/-- A remote client that answers a two-identifier chunk completely but in
reversed order. -/
def oracleSwap : List Int → List Transcript := fun _ => [⟨2, "second"⟩, ⟨1, "first"⟩]

/-- A transform whose output carries no messages. -/
def tfEmptyMessages : Transcript → TransformOut := fun _ => ⟨[]⟩

/-- A transform producing one message that contains the delimiter. -/
def tfOneMessage : Transcript → TransformOut :=
  fun _ => ⟨[[("msg", Value.str "hi|there"), ("dt", Value.int 1)]]⟩

def trSample : Transcript := ⟨5, "body"⟩

def lcSample : LoadCall :=
  ⟨"transcripts", ["msg", "dt"], [[Value.str "hithere", Value.int 1]]⟩

def summarySample : Record :=
  [("a", Value.nan), ("b", Value.int 2), ("c", Value.none)]

def getNone : String → Nat → Nat → Nat := fun _ _ _ => 0

def envTrivial : Env :=
  ⟨fun _ _ _ => [], fun _ => [], fun _ => false, tfId, tfEmptyMessages,
    fun df => df, fun _ => [], 100⟩

def worldEmpty : World := ⟨[], [], [], [], []⟩

def worldAfterVoice : World :=
  ⟨[(contactsFileName "Voice" 3, Artifact.contactsData [])], [], [], [],
    ["download_contacts", "contacts_loading"]⟩

/-! ### Reconciler lemmas -/

theorem mem_get_contacts_to_load (pat : String → Bool)
    (loaded diskFiles : List String) (f : String) :
    f ∈ get_contacts_to_load pat loaded diskFiles ↔
      (f ∈ diskFiles ∧ pat f = true ∧ f ∉ loaded) := by
  simp only [get_contacts_to_load, Finset.mem_sdiff, List.mem_toFinset,
    List.mem_filter]
  tauto

theorem mem_get_transcripts_to_load (loadedIds : List Int)
    (diskFiles : List String) (f : String) :
    f ∈ get_transcripts_to_load loadedIds diskFiles ↔
      (f ∈ diskFiles ∧ matchesTranscriptPattern f = true ∧
        fileContactId f ∉ loadedIds) := by
  simp [get_transcripts_to_load, List.mem_filter]
  tauto

theorem takeWhile_digits_append (ds sfx : List Char)
    (hds : ∀ c ∈ ds, c.isDigit = true) :
    (ds ++ sfx).takeWhile Char.isDigit = ds ++ sfx.takeWhile Char.isDigit := by
  induction ds with
  | nil => rfl
  | cons c cs ih =>
      have hc : c.isDigit = true := hds c (by simp)
      simp [List.takeWhile_cons, hc, ih (fun d hd => hds d (by simp [hd]))]

theorem dropWhile_digits_append (ds sfx : List Char)
    (hds : ∀ c ∈ ds, c.isDigit = true) :
    (ds ++ sfx).dropWhile Char.isDigit = sfx.dropWhile Char.isDigit := by
  induction ds with
  | nil => rfl
  | cons c cs ih =>
      have hc : c.isDigit = true := hds c (by simp)
      simp [List.dropWhile_cons, hc, ih (fun d hd => hds d (by simp [hd]))]

/-- The transcripts filename matcher accepts exactly the strings of the form
`<digits>_data.txt` with a non-empty digit run. -/
theorem matchesTranscriptPattern_iff (f : String) :
    matchesTranscriptPattern f = true ↔
      ∃ ds : List Char, ds ≠ [] ∧ (∀ c ∈ ds, c.isDigit = true) ∧
        f.data = ds ++ "_data.txt".data := by
  constructor
  · intro h
    simp only [matchesTranscriptPattern, Bool.and_eq_true, Bool.not_eq_true',
      decide_eq_true_eq] at h
    refine ⟨leadingDigits f, ?_, ?_, ?_⟩
    · intro hnil
      rw [hnil] at h
      simp at h
    · intro c hc
      exact List.mem_takeWhile_imp hc
    · conv_lhs => rw [← List.takeWhile_append_dropWhile (p := Char.isDigit) (l := f.data)]
      rw [h.2]
      rfl
  · rintro ⟨ds, hne, hdig, hf⟩
    have hsfx : ("_data.txt".data).dropWhile Char.isDigit = "_data.txt".data := by
      decide
    have htake : f.data.takeWhile Char.isDigit = ds := by
      rw [hf, takeWhile_digits_append ds _ hdig]
      have : ("_data.txt".data).takeWhile Char.isDigit = [] := by decide
      simp [this]
    have hdrop : f.data.dropWhile Char.isDigit = "_data.txt".data := by
      rw [hf, dropWhile_digits_append ds _ hdig, hsfx]
    simp [matchesTranscriptPattern, leadingDigits, htake, hdrop, hne]

/-! ### Dict lemmas -/

theorem lookupKey_append (r s : Record) (k : String) :
    lookupKey (r ++ s) k = (lookupKey r k).orElse (fun _ => lookupKey s k) := by
  induction r with
  | nil => rfl
  | cons p r ih =>
      obtain ⟨k1, v1⟩ := p
      by_cases h : k1 = k
      · simp [lookupKey, h, Option.orElse]
      · simp [lookupKey, h, ih]

theorem lookupKey_eq_none (r : Record) (k : String)
    (h : ∀ p ∈ r, p.1 ≠ k) : lookupKey r k = Option.none := by
  induction r with
  | nil => rfl
  | cons p r ih =>
      obtain ⟨k1, v1⟩ := p
      have h1 : k1 ≠ k := h (k1, v1) (by simp)
      simp only [lookupKey, if_neg h1]
      exact ih (fun q hq => h q (by simp [hq]))

theorem lookupKey_mapset_self (r : Record) (k : String) (v : Value)
    (h : r.any (fun p => p.1 = k) = true) :
    lookupKey (r.map (fun p => if p.1 = k then (k, v) else p)) k = some v := by
  induction r with
  | nil => simp at h
  | cons p r ih =>
      obtain ⟨k1, v1⟩ := p
      rw [List.map_cons]
      by_cases h1 : k1 = k
      · rw [if_pos (show (k1, v1).1 = k from h1)]
        simp [lookupKey]
      · rw [if_neg (show ¬(k1, v1).1 = k from h1)]
        simp only [lookupKey, if_neg h1]
        refine ih ?_
        simp only [List.any_cons] at h
        simpa [h1] using h

theorem lookupKey_mapset_ne (r : Record) (k k' : String) (v : Value)
    (h : k' ≠ k) :
    lookupKey (r.map (fun p => if p.1 = k then (k, v) else p)) k'
      = lookupKey r k' := by
  induction r with
  | nil => rfl
  | cons p r ih =>
      obtain ⟨k1, v1⟩ := p
      rw [List.map_cons]
      by_cases h1 : k1 = k
      · have hk1 : ¬k1 = k' := by
          rw [h1]
          exact fun hh => h hh.symm
        rw [if_pos (show (k1, v1).1 = k from h1)]
        simp only [lookupKey, if_neg (show ¬k = k' from fun hh => h hh.symm),
          if_neg hk1]
        exact ih
      · rw [if_neg (show ¬(k1, v1).1 = k from h1)]
        by_cases h2 : k1 = k'
        · simp only [lookupKey, if_pos h2]
        · simp only [lookupKey, if_neg h2]
          exact ih

theorem lookupKey_setKey_self (r : Record) (k : String) (v : Value) :
    lookupKey (setKey r k v) k = some v := by
  unfold setKey
  by_cases h : r.any (fun p => p.1 = k) = true
  · rw [if_pos h]
    exact lookupKey_mapset_self r k v h
  · rw [if_neg h, lookupKey_append]
    have hnone : lookupKey r k = Option.none := by
      refine lookupKey_eq_none r k (fun p hp hpk => h ?_)
      exact List.any_eq_true.mpr ⟨p, hp, by simp [hpk]⟩
    simp [hnone, lookupKey, Option.orElse]

theorem lookupKey_setKey_ne (r : Record) (k k' : String) (v : Value)
    (h : k' ≠ k) :
    lookupKey (setKey r k v) k' = lookupKey r k' := by
  unfold setKey
  by_cases ha : r.any (fun p => p.1 = k) = true
  · rw [if_pos ha]
    exact lookupKey_mapset_ne r k k' v h
  · rw [if_neg ha, lookupKey_append]
    have hone : lookupKey [(k, v)] k' = Option.none := by
      simp [lookupKey, Ne.symm h]
    cases hr : lookupKey r k' <;> simp [Option.orElse, hone, hr]

theorem lookupKey_mem_keys (r : Record) (k : String) (v : Value)
    (h : lookupKey r k = some v) : k ∈ keysOf r := by
  induction r with
  | nil => simp [lookupKey] at h
  | cons p r ih =>
      obtain ⟨k1, v1⟩ := p
      by_cases h1 : k1 = k
      · simp [keysOf, h1]
      · simp only [lookupKey, if_neg h1] at h
        simp only [keysOf, List.map_cons, List.mem_cons]
        exact Or.inr (ih h)

theorem lookupKey_replace_nans (s : Record) (k : String) :
    lookupKey (replace_nans s) k
      = (lookupKey s k).map (fun v => if isnull v then Value.none else v) := by
  induction s with
  | nil => rfl
  | cons p s ih =>
      obtain ⟨k1, v1⟩ := p
      simp only [replace_nans, List.map_cons]
      by_cases hn : isnull v1 = true
      · rw [if_pos (show isnull (k1, v1).2 = true from hn)]
        by_cases h : k1 = k
        · simp [lookupKey, h, hn]
        · simp only [lookupKey, if_neg h]
          simpa [replace_nans] using ih
      · rw [if_neg (show ¬isnull (k1, v1).2 = true from hn)]
        by_cases h : k1 = k
        · simp [lookupKey, h, hn]
        · simp only [lookupKey, if_neg h]
          simpa [replace_nans] using ih

theorem noPipe_sanitizeValue (v : Value) : noPipe (sanitizeValue v) = true := by
  cases v with
  | str s =>
      simp only [sanitizeValue, noPipe, stripPipes, Bool.not_eq_true']
      rw [List.contains_eq_any_beq]
      simp only [List.any_eq_false, beq_iff_eq, List.mem_filter,
        decide_eq_true_eq]
      exact fun x hx hc => hx.2 hc.symm
  | int n => rfl
  | bool b => rfl
  | nan => rfl
  | none => rfl

/-! ### Chunker lemmas -/

theorem chunker_nil {α : Type} (n : Nat) : chunker ([] : List α) n = [] := by
  rw [chunker]
  simp

theorem chunker_eq_cons {α : Type} (l : List α) (n : Nat) (hl : l ≠ [])
    (hn : n ≠ 0) : chunker l n = l.take n :: chunker (l.drop n) n := by
  rw [chunker]
  rw [dif_neg (by simp [hl, hn, List.isEmpty_iff])]

theorem chunker_flatten {α : Type} (n : Nat) (hn : 0 < n) (l : List α) :
    (chunker l n).flatten = l := by
  rcases eq_or_ne l [] with rfl | hl
  · simp [chunker_nil]
  · rw [chunker_eq_cons l n hl (by omega), List.flatten_cons,
      chunker_flatten n hn (l.drop n), List.take_append_drop]
termination_by l.length
decreasing_by
  have : 0 < l.length := List.length_pos.mpr hl
  simp only [List.length_drop]
  omega

theorem chunker_length_twenty (l : List Int) :
    (chunker l 20).length = (l.length + 19) / 20 := by
  rcases eq_or_ne l [] with rfl | hl
  · simp [chunker_nil]
  · rw [chunker_eq_cons l 20 hl (by omega)]
    have h20 := chunker_length_twenty (l.drop 20)
    have hpos : 0 < l.length := List.length_pos.mpr hl
    simp only [List.length_cons, h20, List.length_drop]
    omega
termination_by l.length
decreasing_by
  have : 0 < l.length := List.length_pos.mpr hl
  simp only [List.length_drop]
  omega

theorem chunker_sizes {α : Type} (n : Nat) (hn : 0 < n) (l : List α) :
    ∀ c ∈ chunker l n, c ≠ [] ∧ c.length ≤ n := by
  rcases eq_or_ne l [] with rfl | hl
  · simp [chunker_nil]
  · rw [chunker_eq_cons l n hl (by omega)]
    intro c hc
    rcases List.mem_cons.mp hc with rfl | hc
    · constructor
      · simp [List.take_eq_nil_iff, hl]
        omega
      · simp [List.length_take]
    · exact chunker_sizes n hn (l.drop n) c hc
termination_by l.length
decreasing_by
  have : 0 < l.length := List.length_pos.mpr hl
  simp only [List.length_drop]
  omega

theorem chunker_single {α : Type} (l : List α) (n : Nat) (hl : l ≠ [])
    (hn : 0 < n) (hlen : l.length ≤ n) : chunker l n = [l] := by
  rw [chunker_eq_cons l n hl (by omega), List.take_of_length_le hlen,
    List.drop_eq_nil_of_le hlen, chunker_nil]

/-! ### Trace lemmas for the transcript fetcher -/

theorem processChunks_success (oracle : List Int → List Transcript)
    (chunks : List (List Int))
    (h : ∀ c ∈ chunks, c.length ≤ (oracle c).length) :
    processChunks oracle chunks
      = ((chunks.map (chunkEvents oracle)).flatten, Option.none) := by
  induction chunks with
  | nil => rfl
  | cons c rest ih =>
      have hc : ¬(oracle c).length < c.length := by
        have := h c (by simp)
        omega
      have ihr := ih (fun d hd => h d (by simp [hd]))
      simp only [processChunks, if_neg hc, ihr, List.map_cons, List.flatten_cons,
        chunkEvents]
      simp [List.append_assoc]

theorem processChunks_failure (oracle : List Int → List Transcript)
    (good : List (List Int)) (bad : List Int) (rest : List (List Int))
    (hgood : ∀ c ∈ good, c.length ≤ (oracle c).length)
    (hbad : (oracle bad).length < bad.length) :
    processChunks oracle (good ++ bad :: rest)
      = ((good.map (chunkEvents oracle)).flatten
          ++ [Ev.call bad,
              Ev.logMissing (bad.filter
                (fun id => !((oracle bad).map Transcript.contactID).contains id))],
         some "Transcripts not returned for all contact ids") := by
  induction good with
  | nil => simp [processChunks, if_pos hbad]
  | cons c g ih =>
      have hc : ¬(oracle c).length < c.length := by
        have := hgood c (by simp)
        omega
      have ihr := ih (fun d hd => hgood d (by simp [hd]))
      simp only [List.cons_append, processChunks, List.append_eq, if_neg hc,
        ihr, List.map_cons, List.flatten_cons, chunkEvents]
      simp only [List.cons_append, List.append_assoc, List.nil_append]

theorem callsOf_append (a b : List Ev) :
    callsOf (a ++ b) = callsOf a ++ callsOf b := by
  simp [callsOf, List.filterMap_append]

theorem updatesOf_append (a b : List Ev) :
    updatesOf (a ++ b) = updatesOf a ++ updatesOf b := by
  simp [updatesOf, List.filterMap_append]

theorem savesOf_append (a b : List Ev) :
    savesOf (a ++ b) = savesOf a ++ savesOf b := by
  simp [savesOf, List.filterMap_append]

theorem callsOf_saveEvents (c : List Int) (ts : List Transcript) :
    callsOf (saveEvents c ts) = [] := by
  induction c generalizing ts with
  | nil => rfl
  | cons x c ih =>
      cases ts with
      | nil => rfl
      | cons t ts => simpa [saveEvents, callsOf] using ih ts

theorem updatesOf_saveEvents (c : List Int) (ts : List Transcript) :
    updatesOf (saveEvents c ts) = [] := by
  induction c generalizing ts with
  | nil => rfl
  | cons x c ih =>
      cases ts with
      | nil => rfl
      | cons t ts => simpa [saveEvents, updatesOf] using ih ts

theorem savesOf_saveEvents (c : List Int) (ts : List Transcript) :
    savesOf (saveEvents c ts)
      = List.zipWith (fun id t => (idFileName id, t)) c ts := by
  induction c generalizing ts with
  | nil => rfl
  | cons x c ih =>
      cases ts with
      | nil => rfl
      | cons t ts => simpa [saveEvents, savesOf] using ih ts

theorem callsOf_call_cons (c : List Int) (evs : List Ev) :
    callsOf (Ev.call c :: evs) = c :: callsOf evs := rfl

theorem updatesOf_call_cons (c : List Int) (evs : List Ev) :
    updatesOf (Ev.call c :: evs) = updatesOf evs := rfl

theorem savesOf_call_cons (c : List Int) (evs : List Ev) :
    savesOf (Ev.call c :: evs) = savesOf evs := rfl

theorem callsOf_chunkEvents (oracle : List Int → List Transcript)
    (c : List Int) : callsOf (chunkEvents oracle c) = [c] := by
  rw [chunkEvents, callsOf_call_cons, callsOf_append, callsOf_saveEvents]
  rfl

theorem updatesOf_chunkEvents (oracle : List Int → List Transcript)
    (c : List Int) : updatesOf (chunkEvents oracle c) = [c] := by
  rw [chunkEvents, updatesOf_call_cons, updatesOf_append, updatesOf_saveEvents]
  rfl

theorem savesOf_chunkEvents (oracle : List Int → List Transcript)
    (c : List Int) :
    savesOf (chunkEvents oracle c)
      = List.zipWith (fun id t => (idFileName id, t)) c (oracle c) := by
  rw [chunkEvents, savesOf_call_cons, savesOf_append, savesOf_saveEvents]
  simp [savesOf]

theorem callsOf_flatten_map (oracle : List Int → List Transcript)
    (chunks : List (List Int)) :
    callsOf ((chunks.map (chunkEvents oracle)).flatten) = chunks := by
  induction chunks with
  | nil => rfl
  | cons c g ih =>
      simp [List.flatten_cons, callsOf_append, callsOf_chunkEvents, ih]

theorem updatesOf_flatten_map (oracle : List Int → List Transcript)
    (chunks : List (List Int)) :
    updatesOf ((chunks.map (chunkEvents oracle)).flatten) = chunks := by
  induction chunks with
  | nil => rfl
  | cons c g ih =>
      simp [List.flatten_cons, updatesOf_append, updatesOf_chunkEvents, ih]

theorem callsOf_logMsg_cons (m : String) (evs : List Ev) :
    callsOf (Ev.logMsg m :: evs) = callsOf evs := rfl

theorem updatesOf_logMsg_cons (m : String) (evs : List Ev) :
    updatesOf (Ev.logMsg m :: evs) = updatesOf evs := rfl

theorem savesOf_logMsg_cons (m : String) (evs : List Ev) :
    savesOf (Ev.logMsg m :: evs) = savesOf evs := rfl

theorem download_transcripts_success (oracle : List Int → List Transcript)
    (ids : List Int) (hne : ids ≠ [])
    (hfull : ∀ c ∈ chunker ids 20, c.length ≤ (oracle c).length) :
    download_transcripts oracle ids
      = (Ev.logMsg "Attempting to process contact ids"
          :: ((chunker ids 20).map (chunkEvents oracle)).flatten,
         Option.none) := by
  have hproc := processChunks_success oracle (chunker ids 20) hfull
  rw [download_transcripts, if_neg (by simpa [List.isEmpty_iff] using hne)]
  rw [hproc]

theorem download_transcripts_failure (oracle : List Int → List Transcript)
    (ids : List Int) (good : List (List Int)) (bad : List Int)
    (rest : List (List Int)) (hsplit : chunker ids 20 = good ++ bad :: rest)
    (hgood : ∀ c ∈ good, c.length ≤ (oracle c).length)
    (hbad : (oracle bad).length < bad.length) :
    download_transcripts oracle ids
      = (Ev.logMsg "Attempting to process contact ids"
          :: ((good.map (chunkEvents oracle)).flatten
              ++ [Ev.call bad,
                  Ev.logMissing (bad.filter
                    (fun id => !((oracle bad).map Transcript.contactID).contains id))]),
         some "Transcripts not returned for all contact ids") := by
  have hne : ids ≠ [] := by
    intro h
    rw [h, chunker_nil] at hsplit
    exact absurd hsplit.symm (by simp)
  have hproc := processChunks_failure oracle good bad rest hgood hbad
  rw [download_transcripts, if_neg (by simpa [List.isEmpty_iff] using hne)]
  rw [hsplit, hproc]

/-! ### Parse-result inversion -/

theorem parse_transcript_ok (tf : Transcript → TransformOut) (tr : Transcript)
    (lc : LoadCall) (h : parse_transcript tf tr = Except.ok lc) :
    lc.table = "transcripts"
    ∧ ∃ rows : List (List Value),
        lc.rows = rows.map (fun row => row.map sanitizeValue) := by
  unfold parse_transcript at h
  rcases hm : (tf tr).messages with _ | ⟨m, rest⟩
  · rw [hm] at h
    exact absurd h (by simp)
  · rw [hm] at h
    dsimp only at h
    rcases hr : (m :: rest).mapM (projectRow (keysOf m)) with e | rows
    · rw [hr] at h
      exact absurd h (by simp)
    · rw [hr] at h
      dsimp only at h
      have hlc := Except.ok.inj h
      subst hlc
      exact ⟨rfl, rows, rfl⟩

/-! ### Stage frame lemmas for `main` -/

theorem downloadContactsStage_frame (env : Env) (itype : String)
    (sd ed : Nat) (w : World) :
    (downloadContactsStage env itype sd ed w).transcripts = w.transcripts
    ∧ (downloadContactsStage env itype sd ed w).enhanced = w.enhanced
    ∧ (downloadContactsStage env itype sd ed w).ran
        = w.ran ++ ["download_contacts"] :=
  ⟨rfl, rfl, rfl⟩

theorem contactsLoadStep_error (env : Env) (w : World) (files : List String)
    (e : String) :
    files.foldl (contactsLoadStep env w) (Except.error e) = Except.error e := by
  induction files with
  | nil => rfl
  | cons f fs ih => simpa [contactsLoadStep] using ih

theorem contactsLoadStep_fold_frame (env : Env) (w : World)
    (files : List String) (wa wb : World)
    (h : files.foldl (contactsLoadStep env w) (Except.ok wa) = Except.ok wb) :
    wb.transcripts = wa.transcripts ∧ wb.enhanced = wa.enhanced
    ∧ wb.ran = wa.ran ∧ wb.disk = wa.disk := by
  induction files generalizing wa with
  | nil =>
      have := Except.ok.inj h
      rw [← this]
      exact ⟨rfl, rfl, rfl, rfl⟩
  | cons f fs ih =>
      rw [List.foldl_cons] at h
      rw [show contactsLoadStep env w (Except.ok wa) f
          = match parse_contacts_file env.tfContacts f (readContactsArtifact w f) with
            | Except.error e => Except.error e
            | Except.ok pf =>
              match pf.load with
              | Option.none => Except.ok wa
              | some lc =>
                  Except.ok { wa with contacts := wa.contacts ++ rowsToRecords lc }
          from rfl] at h
      rcases hp : parse_contacts_file env.tfContacts f (readContactsArtifact w f)
        with e | pf
      · rw [hp, contactsLoadStep_error] at h
        exact absurd h (by simp)
      · rw [hp] at h
        dsimp only at h
        rcases hl : pf.load with _ | lc
        · rw [hl] at h
          dsimp only at h
          exact ih wa h
        · rw [hl] at h
          dsimp only at h
          exact ih { wa with contacts := wa.contacts ++ rowsToRecords lc } h

theorem contactsLoadingStage_frame (env : Env) (w wb : World)
    (h : contactsLoadingStage env w = Except.ok wb) :
    wb.transcripts = w.transcripts ∧ wb.enhanced = w.enhanced
    ∧ wb.ran = w.ran ++ ["contacts_loading"] := by
  unfold contactsLoadingStage at h
  rcases hfold : (contactsFilesToLoad env w).foldl (contactsLoadStep env w)
      (Except.ok w) with e | wa
  · rw [hfold] at h
    exact absurd h (by simp [Except.map])
  · rw [hfold] at h
    simp only [Except.map] at h
    have hfr := contactsLoadStep_fold_frame env w (contactsFilesToLoad env w) w wa hfold
    have := Except.ok.inj h
    rw [← this]
    exact ⟨hfr.1, hfr.2.1, by rw [hfr.2.2.1]⟩

theorem main_not_im (env : Env) (itype : String) (s e : Nat) (w w' : World)
    (hty : itype ≠ "IM")
    (h : main env itype (some s) (some e) w = Except.ok w') :
    w'.transcripts = w.transcripts ∧ w'.enhanced = w.enhanced
    ∧ w'.ran = w.ran ++ ["download_contacts", "contacts_loading"] := by
  unfold main at h
  dsimp only at h
  rcases hcl : contactsLoadingStage env (downloadContactsStage env itype s e w)
      with msg | w2
  · rw [hcl] at h
    exact absurd h (by simp)
  · rw [hcl] at h
    dsimp only at h
    rw [if_neg hty] at h
    have h2 := Except.ok.inj h
    have hfr := contactsLoadingStage_frame env _ w2 hcl
    have hd := downloadContactsStage_frame env itype s e w
    rw [← h2]
    refine ⟨hfr.1.trans hd.1, hfr.2.1.trans hd.2.1, ?_⟩
    rw [hfr.2.2, hd.2.2, List.append_assoc]
    rfl

/-! ## Claim theorems -/

/-- C1: `download_transcripts` splits the identifier list into chunks of at
most 20 and, when the remote client answers every chunk completely, issues
exactly `⌈L/20⌉` remote calls and persists one batched marker update per
chunk, placed after that chunk's saves; when a chunk comes back short, the
operation raises the fatal error, logs exactly the set difference of missing
identifiers, and persists no `transcript_downloaded` marker for any
identifier of that chunk. -/
theorem c1_download_transcripts_chunking (oracle : List Int → List Transcript)
    (ids : List Int) (hnd : ids.Nodup) :
    (∀ c ∈ chunker ids 20, c ≠ [] ∧ c.length ≤ 20)
    ∧ ((∀ c ∈ chunker ids 20, c.length ≤ (oracle c).length) →
        (download_transcripts oracle ids).2 = Option.none
        ∧ (callsOf (download_transcripts oracle ids).1).length
            = (ids.length + 19) / 20
        ∧ updatesOf (download_transcripts oracle ids).1 = chunker ids 20
        ∧ (ids ≠ [] →
            (download_transcripts oracle ids).1
              = Ev.logMsg "Attempting to process contact ids"
                  :: ((chunker ids 20).map (chunkEvents oracle)).flatten))
    ∧ (∀ good bad rest, chunker ids 20 = good ++ bad :: rest →
        (∀ c ∈ good, c.length ≤ (oracle c).length) →
        (oracle bad).length < bad.length →
        (download_transcripts oracle ids).2
            = some "Transcripts not returned for all contact ids"
        ∧ Ev.logMissing (bad.filter
              (fun id => !((oracle bad).map Transcript.contactID).contains id))
            ∈ (download_transcripts oracle ids).1
        ∧ (∀ i : Int, i ∈ bad.filter
              (fun id => !((oracle bad).map Transcript.contactID).contains id)
            ↔ (i ∈ bad ∧ i ∉ (oracle bad).map Transcript.contactID))
        ∧ updatesOf (download_transcripts oracle ids).1 = good
        ∧ (∀ i ∈ bad, ∀ u ∈ updatesOf (download_transcripts oracle ids).1,
            i ∉ u)) := by
  refine ⟨chunker_sizes 20 (by omega) ids, ?_, ?_⟩
  · intro hfull
    rcases eq_or_ne ids [] with rfl | hne
    · refine ⟨rfl, ?_, ?_, fun hcon => absurd rfl hcon⟩
      · rfl
      · rw [chunker_nil]
        rfl
    · have hdl := download_transcripts_success oracle ids hne hfull
      rw [hdl]
      dsimp only
      refine ⟨rfl, ?_, ?_, fun _ => rfl⟩
      · rw [callsOf_logMsg_cons, callsOf_flatten_map, chunker_length_twenty]
      · rw [updatesOf_logMsg_cons, updatesOf_flatten_map]
  · intro good bad rest hsplit hgood hbad
    have hdl := download_transcripts_failure oracle ids good bad rest hsplit
      hgood hbad
    have hupd : updatesOf (download_transcripts oracle ids).1 = good := by
      rw [hdl]
      dsimp only
      rw [updatesOf_logMsg_cons, updatesOf_append, updatesOf_flatten_map]
      rw [show updatesOf [Ev.call bad,
          Ev.logMissing (bad.filter
            (fun id => !((oracle bad).map Transcript.contactID).contains id))]
          = [] from rfl]
      rw [List.append_nil]
    refine ⟨by rw [hdl], ?_, ?_, hupd, ?_⟩
    · rw [hdl]
      dsimp only
      simp
    · intro i
      simp [List.mem_filter]
    · intro i hi u hu hiu
      rw [hupd] at hu
      have hflat : (good ++ bad :: rest).flatten = ids := by
        rw [← hsplit]
        exact chunker_flatten 20 (by omega) ids
      have hnd2 : (good.flatten ++ (bad :: rest).flatten).Nodup := by
        rw [← List.flatten_append, hflat]
        exact hnd
      have hdisj := (List.nodup_append.mp hnd2).2.2
      exact hdisj (List.mem_flatten.mpr ⟨u, hu, hiu⟩)
        (by rw [List.flatten_cons]; exact List.mem_append_left _ hi)

/-- Witness for C1 at a concrete identifier list and a complete remote
client: one chunk, one remote call, no error. -/
theorem c1_download_transcripts_chunking_witness :
    ([1, 2, 3] : List Int).Nodup
    ∧ (download_transcripts oracleEcho [1, 2, 3]).2 = Option.none
    ∧ (callsOf (download_transcripts oracleEcho [1, 2, 3]).1).length = 1 := by
  have h := c1_download_transcripts_chunking oracleEcho [1, 2, 3] (by decide)
  have hfull : ∀ c ∈ chunker [1, 2, 3] 20,
      c.length ≤ (oracleEcho c).length := by
    intro c _
    simp [oracleEcho]
  have h2 := h.2.1 hfull
  refine ⟨by decide, h2.1, ?_⟩
  rw [h2.2.1]
  decide

/-- C2: `get_contacts_to_load` returns exactly (pattern-matching on-disk
files) minus (persisted `load_file` values); it is idempotent on an
unchanged state, and an artifact whose basename has been persisted no longer
appears in the result. -/
theorem c2_contacts_reconciler (pat : String → Bool)
    (loaded diskFiles : List String) :
    (∀ f, f ∈ get_contacts_to_load pat loaded diskFiles ↔
        (f ∈ diskFiles ∧ pat f = true ∧ f ∉ loaded))
    ∧ get_contacts_to_load pat loaded diskFiles
        = get_contacts_to_load pat loaded diskFiles
    ∧ (∀ f, f ∉ get_contacts_to_load pat (loaded ++ [f]) diskFiles) := by
  refine ⟨fun f => mem_get_contacts_to_load pat loaded diskFiles f, rfl,
    fun f hf => ?_⟩
  rw [mem_get_contacts_to_load] at hf
  exact hf.2.2 (by simp)

/-- Witness for C2 at a concrete disk and persisted state. -/
theorem c2_contacts_reconciler_witness :
    ("b" ∈ get_contacts_to_load (fun _ => true) ["a"] ["a", "b"]
      ↔ ("b" ∈ ["a", "b"] ∧ (fun _ : String => true) "b" = true
          ∧ "b" ∉ ["a"]))
    ∧ "c" ∉ get_contacts_to_load (fun _ => true) (["a"] ++ ["c"]) ["a", "b"] := by
  have h := c2_contacts_reconciler (fun _ => true) ["a"] ["a", "b"]
  exact ⟨h.1 "b", h.2.2 "c"⟩

/-- C3: with an explicit date range of `N` days, `download_contacts` issues
one remote call per calendar day with the window
`[00:00:00.000, 23:59:59.999]` of that day and saves one artifact named
`{type}_{date}_contacts` per day — `N` calls and `N` artifacts in all. -/
theorem c3_download_contacts_day_windows {α : Type}
    (get : String → Nat → Nat → α) (itype : String) (startDay endDay : Nat)
    (h : startDay ≤ endDay) :
    (download_contacts get itype startDay endDay).length
        = endDay - startDay + 1
    ∧ (∀ i (hi : i < (download_contacts get itype startDay endDay).length),
        (download_contacts get itype startDay endDay)[i]
          = (⟨itype, (startDay + i) * msPerDay,
              (startDay + i) * msPerDay + msPerDay - 1⟩,
             (contactsFileName itype (startDay + i),
              get itype ((startDay + i) * msPerDay)
                ((startDay + i) * msPerDay + msPerDay - 1))))
    ∧ (∀ p ∈ download_contacts get itype startDay endDay,
        p.1.startMs % msPerDay = 0
        ∧ p.1.endMs = p.1.startMs + (msPerDay - 1)
        ∧ p.1.endMs / msPerDay = p.1.startMs / msPerDay) := by
  refine ⟨?_, ?_, ?_⟩
  · simp only [download_contacts, List.length_map, generate_date_range,
      List.length_range']
    omega
  · intro i hi
    simp [download_contacts, generate_date_range, List.getElem_map,
      List.getElem_range']
  · intro p hp
    simp only [download_contacts, List.mem_map] at hp
    obtain ⟨d, _, rfl⟩ := hp
    refine ⟨?_, ?_, ?_⟩
    · simp [msPerDay]
    · dsimp only
      rw [msPerDay]
      omega
    · dsimp only
      rw [msPerDay]
      omega

/-- Witness for C3 at the three-day range 3..5. -/
theorem c3_download_contacts_day_windows_witness :
    3 ≤ 5 ∧ (download_contacts getNone "IM" 3 5).length = 5 - 3 + 1 :=
  ⟨by decide, (c3_download_contacts_day_windows getNone "IM" 3 5 (by decide)).1⟩

/-- C4 (amended): every transcript row batch handed to the storage
collaborator has the delimiter `'|'` removed from every string value; the
enhanced-summary handoff, in contrast, passes every summary value through to
the loaded row unchanged, with no such removal. -/
theorem c4_transcript_rows_sanitized (tf : Transcript → TransformOut)
    (tr : Transcript) (lc : LoadCall)
    (h : parse_transcript tf tr = Except.ok lc) :
    lc.table = "transcripts"
    ∧ (∀ row ∈ lc.rows, ∀ v ∈ row, noPipe v = true)
    ∧ (∀ (cid : Int) (summary : Record) (k : String) (v : Value),
        lookupKey summary k = some v →
        ∀ row ∈ (load_enhanced_transcript cid summary).rows, v ∈ row) := by
  obtain ⟨ht, rows, hrows⟩ := parse_transcript_ok tf tr lc h
  refine ⟨ht, ?_, ?_⟩
  · rw [hrows]
    intro row hrow v hv
    obtain ⟨r0, _, rfl⟩ := List.mem_map.mp hrow
    obtain ⟨u, _, rfl⟩ := List.mem_map.mp hv
    exact noPipe_sanitizeValue u
  · intro cid summary k v hkv row hrow
    have hrw : (load_enhanced_transcript cid summary).rows
        = [Value.int cid :: (keysOf summary).map (dictGet summary)] := rfl
    rw [hrw] at hrow
    have hr := List.mem_singleton.mp hrow
    subst hr
    refine List.mem_cons_of_mem _ (List.mem_map.mpr
      ⟨k, lookupKey_mem_keys summary k v hkv, ?_⟩)
    simp [dictGet, hkv]

/-- Witness for C4 at a message containing the delimiter: the loaded row
holds the stripped string. -/
theorem c4_transcript_rows_sanitized_witness :
    parse_transcript tfOneMessage trSample = Except.ok lcSample
    ∧ lcSample.table = "transcripts"
    ∧ lcSample.rows.all (fun row => row.all noPipe) = true := by
  have hp : parse_transcript tfOneMessage trSample = Except.ok lcSample := by
    rfl
  have h := c4_transcript_rows_sanitized tfOneMessage trSample lcSample hp
  exact ⟨hp, h.1, by decide⟩

/-- Counterexample to C4 as stated: an enhanced-summary value containing the
delimiter is handed to the storage collaborator with the delimiter intact. -/
theorem c4_enhanced_row_keeps_delimiter :
    (load_enhanced_transcript 7 [("msg", Value.str "a|b")]).rows
        = [[Value.int 7, Value.str "a|b"]]
    ∧ (load_enhanced_transcript 7 [("msg", Value.str "a|b")]).rows.all
        (fun row => row.all noPipe) = false :=
  ⟨rfl, by decide⟩

/-- C5 (amended): an empty identifier list makes `download_transcripts` log
and return without calling the remote client or the loader, and an empty
contacts artifact makes `parse_contacts_file` log and return without
loading; but a transcript whose transformed output has an empty message list
makes `parse_transcript` raise an `IndexError` rather than return early. -/
theorem c5_empty_inputs (oracle : List Int → List Transcript)
    (tfc : Record → Record) (filename : String)
    (tft : Transcript → TransformOut) (tr : Transcript)
    (hempty : (tft tr).messages = []) :
    download_transcripts oracle []
        = ([Ev.logMsg "No contact ids to parse. Exiting.."], Option.none)
    ∧ parse_contacts_file tfc filename []
        = Except.ok ⟨["Parsing contact file", "Empty contacts file. Exiting.."],
            Option.none⟩
    ∧ parse_transcript tft tr
        = Except.error "IndexError: list index out of range" := by
  refine ⟨rfl, rfl, ?_⟩
  unfold parse_transcript
  rw [hempty]

/-- Witness for C5 at concrete empty inputs. -/
theorem c5_empty_inputs_witness :
    (tfEmptyMessages trSample).messages = []
    ∧ download_transcripts oracleEcho []
        = ([Ev.logMsg "No contact ids to parse. Exiting.."], Option.none)
    ∧ parse_transcript tfEmptyMessages trSample
        = Except.error "IndexError: list index out of range" := by
  have h := c5_empty_inputs oracleEcho tfId "f" tfEmptyMessages trSample rfl
  exact ⟨rfl, h.1, h.2.2⟩

/-- Counterexample to C5 as stated: on a transcript artifact whose
transformed output has no messages, `parse_transcript` raises instead of
logging and returning early. -/
theorem c5_empty_transcript_raises :
    parse_transcript tfEmptyMessages trSample
      = Except.error "IndexError: list index out of range" := rfl

/-- C6: `get_transcripts_to_load` returns exactly the on-disk basenames of
the form `<digits>_data.txt` whose parsed identifier is absent from the
persisted `contact_id` set. -/
theorem c6_transcripts_reconciler (loadedIds : List Int)
    (diskFiles : List String) :
    (∀ f, f ∈ get_transcripts_to_load loadedIds diskFiles ↔
        (f ∈ diskFiles ∧ matchesTranscriptPattern f = true ∧
          fileContactId f ∉ loadedIds))
    ∧ (∀ f, matchesTranscriptPattern f = true ↔
        ∃ ds : List Char, ds ≠ [] ∧ (∀ c ∈ ds, c.isDigit = true) ∧
          f.data = ds ++ "_data.txt".data) :=
  ⟨mem_get_transcripts_to_load loadedIds diskFiles,
    fun f => matchesTranscriptPattern_iff f⟩

/-- Witness for C6 at a concrete disk and persisted state. -/
theorem c6_transcripts_reconciler_witness :
    ("12_data.txt" ∈ get_transcripts_to_load [5] ["12_data.txt", "5_data.txt"]
      ↔ ("12_data.txt" ∈ ["12_data.txt", "5_data.txt"]
          ∧ matchesTranscriptPattern "12_data.txt" = true
          ∧ fileContactId "12_data.txt" ∉ [5]))
    ∧ matchesTranscriptPattern "12_data.txt" = true := by
  have h := c6_transcripts_reconciler [5] ["12_data.txt", "5_data.txt"]
  exact ⟨h.1 "12_data.txt", by decide⟩

/-- C7: `parse_contacts_file`'s per-contact step runs the transform pipeline
first and then layers exactly three extra fields on top of its output:
`interaction_type` from the filename prefix, `transcript_downloaded` set to
false, and `load_file` set to the artifact basename; every other key carries
exactly the transform output's value. -/
theorem c7_contact_fields_layered (tf : Record → Record) (base_file : String)
    (contact : Record) :
    lookupKey (parse_contact_record tf base_file contact) "interaction_type"
        = some (Value.str (firstField base_file))
    ∧ lookupKey (parse_contact_record tf base_file contact)
        "transcript_downloaded" = some (Value.bool false)
    ∧ lookupKey (parse_contact_record tf base_file contact) "load_file"
        = some (Value.str base_file)
    ∧ (∀ k, k ≠ "interaction_type" → k ≠ "transcript_downloaded" →
        k ≠ "load_file" →
        lookupKey (parse_contact_record tf base_file contact) k
          = lookupKey (tf contact) k) := by
  unfold parse_contact_record
  refine ⟨?_, ?_, ?_, ?_⟩
  · rw [lookupKey_setKey_ne _ _ _ _ (by decide),
      lookupKey_setKey_ne _ _ _ _ (by decide), lookupKey_setKey_self]
  · rw [lookupKey_setKey_ne _ _ _ _ (by decide), lookupKey_setKey_self]
  · rw [lookupKey_setKey_self]
  · intro k h1 h2 h3
    rw [lookupKey_setKey_ne _ _ _ _ h3, lookupKey_setKey_ne _ _ _ _ h2,
      lookupKey_setKey_ne _ _ _ _ h1]

/-- Witness for C7 at an identity transform and a concrete filename. -/
theorem c7_contact_fields_layered_witness :
    lookupKey (parse_contact_record tfId "IM_2020-1-1_contacts.txt"
        [("agent_id", Value.int 3)]) "interaction_type"
      = some (Value.str "IM")
    ∧ lookupKey (parse_contact_record tfId "IM_2020-1-1_contacts.txt"
        [("agent_id", Value.int 3)]) "transcript_downloaded"
      = some (Value.bool false)
    ∧ lookupKey (parse_contact_record tfId "IM_2020-1-1_contacts.txt"
        [("agent_id", Value.int 3)]) "load_file"
      = some (Value.str "IM_2020-1-1_contacts.txt")
    ∧ lookupKey (parse_contact_record tfId "IM_2020-1-1_contacts.txt"
        [("agent_id", Value.int 3)]) "agent_id" = some (Value.int 3) := by
  have h := c7_contact_fields_layered tfId "IM_2020-1-1_contacts.txt"
    [("agent_id", Value.int 3)]
  exact ⟨h.1.trans (by decide), h.2.1, h.2.2.1,
    (h.2.2.2 "agent_id" (by decide) (by decide) (by decide)).trans (by decide)⟩

/-- C8: `replace_nans` maps every null/undefined summary value to `None`,
leaves every non-null entry unchanged, and the summary row subsequently
handed to `load_enhanced_transcript` contains no NaN sentinel in any
field. -/
theorem c8_replace_nans_spec (summary : Record) (cid : Int) :
    (∀ p ∈ summary, isnull p.2 = true →
        (p.1, Value.none) ∈ replace_nans summary)
    ∧ (∀ p ∈ summary, isnull p.2 = false → p ∈ replace_nans summary)
    ∧ (∀ k, lookupKey (replace_nans summary) k
        = (lookupKey summary k).map
            (fun v => if isnull v then Value.none else v))
    ∧ (∀ row ∈ (load_enhanced_transcript cid (replace_nans summary)).rows,
        ∀ v ∈ row, v ≠ Value.nan) := by
  refine ⟨?_, ?_, fun k => lookupKey_replace_nans summary k, ?_⟩
  · intro p hp hnull
    simp only [replace_nans]
    refine List.mem_map.mpr ⟨p, hp, ?_⟩
    rw [if_pos hnull]
  · intro p hp hnull
    simp only [replace_nans]
    refine List.mem_map.mpr ⟨p, hp, ?_⟩
    rw [if_neg (by simp [hnull])]
  · intro row hrow v hv
    have hrw : (load_enhanced_transcript cid (replace_nans summary)).rows
        = [Value.int cid :: (keysOf (replace_nans summary)).map
            (dictGet (replace_nans summary))] := rfl
    rw [hrw] at hrow
    have hr := List.mem_singleton.mp hrow
    subst hr
    rcases List.mem_cons.mp hv with rfl | hv2
    · exact fun hfalse => Value.noConfusion hfalse
    · obtain ⟨k, _, rfl⟩ := List.mem_map.mp hv2
      intro hna
      have hlk := lookupKey_replace_nans summary k
      simp only [dictGet] at hna
      rw [hlk] at hna
      rcases hl : lookupKey summary k with _ | v0
      · rw [hl] at hna
        exact Value.noConfusion hna
      · rw [hl] at hna
        simp only [Option.map_some', Option.getD_some] at hna
        by_cases hn : isnull v0 = true
        · rw [if_pos hn] at hna
          exact Value.noConfusion hna
        · rw [if_neg hn] at hna
          rw [hna] at hn
          simp [isnull] at hn

/-- Witness for C8 at a summary holding a NaN, a number, and a null. -/
theorem c8_replace_nans_spec_witness :
    ("a", Value.none) ∈ replace_nans summarySample
    ∧ ("b", Value.int 2) ∈ replace_nans summarySample
    ∧ lookupKey (replace_nans summarySample) "a" = some Value.none := by
  have h := c8_replace_nans_spec summarySample 9
  exact ⟨h.1 ("a", Value.nan) (by decide) (by decide),
    h.2.1 ("b", Value.int 2) (by decide) (by decide),
    (h.2.2.1 "a").trans (by decide)⟩

/-- C9: on a successful chunk, the i-th returned transcript is saved under
the i-th requested identifier's `{id}_data.txt` filename, purely by position
in the request list — the payload's own ContactID plays no part in the
pairing. -/
theorem c9_positional_saves (oracle : List Int → List Transcript)
    (ids : List Int) (hne : ids ≠ []) (hlen : ids.length ≤ 20)
    (hfull : (oracle ids).length = ids.length) :
    savesOf (download_transcripts oracle ids).1
      = List.zipWith (fun id t => (idFileName id, t)) ids (oracle ids) := by
  have hch : chunker ids 20 = [ids] := chunker_single ids 20 hne (by omega) hlen
  have hfull2 : ∀ c ∈ chunker ids 20, c.length ≤ (oracle c).length := by
    rw [hch]
    intro c hc
    have hce := List.mem_singleton.mp hc
    subst hce
    omega
  have hdl := download_transcripts_success oracle ids hne hfull2
  rw [hdl]
  dsimp only
  rw [savesOf_logMsg_cons, hch]
  simp [savesOf_append, savesOf_chunkEvents]

/-- Witness for C9: a remote client that answers completely but in reversed
order gets each transcript saved under the other identifier's filename. -/
theorem c9_positional_saves_witness :
    ([1, 2] : List Int) ≠ []
    ∧ savesOf (download_transcripts oracleSwap [1, 2]).1
        = [(idFileName 1, ⟨2, "second"⟩), (idFileName 2, ⟨1, "first"⟩)] := by
  have h := c9_positional_saves oracleSwap [1, 2] (by decide) (by decide) rfl
  exact ⟨by decide, h.trans rfl⟩

/-- C10: `main` invoked with an interaction type other than `IM` returns
right after the contacts-loading stage: the `transcripts` and
`enhanced_transcripts` relations are untouched and no transcript stage
runs. -/
theorem c10_main_skips_transcript_stages (env : Env) (itype : String)
    (sd ed : Option Nat) (w w' : World) (hty : itype ≠ "IM")
    (h : main env itype sd ed w = Except.ok w') :
    w'.transcripts = w.transcripts ∧ w'.enhanced = w.enhanced
    ∧ (w'.ran = w.ran
        ∨ w'.ran = w.ran ++ ["download_contacts", "contacts_loading"]) := by
  rcases sd with _ | s
  · rcases ed with _ | e
    · have h' : main env itype (some (env.today - 1)) (some (env.today - 1)) w
          = Except.ok w' := h
      have hm := main_not_im env itype _ _ w w' hty h'
      exact ⟨hm.1, hm.2.1, Or.inr hm.2.2⟩
    · have h2 : w = w' := Except.ok.inj h
      rw [← h2]
      exact ⟨rfl, rfl, Or.inl rfl⟩
  · rcases ed with _ | e
    · have h2 : w = w' := Except.ok.inj h
      rw [← h2]
      exact ⟨rfl, rfl, Or.inl rfl⟩
    · have hm := main_not_im env itype s e w w' hty h
      exact ⟨hm.1, hm.2.1, Or.inr hm.2.2⟩

/-- Witness for C10: a `Voice` run against trivial collaborators ends after
contacts loading with both transcript relations untouched. -/
theorem c10_main_skips_transcript_stages_witness :
    ("Voice" : String) ≠ "IM"
    ∧ main envTrivial "Voice" (some 3) (some 3) worldEmpty
        = Except.ok worldAfterVoice
    ∧ worldAfterVoice.transcripts = worldEmpty.transcripts
    ∧ worldAfterVoice.enhanced = worldEmpty.enhanced := by
  have hm : main envTrivial "Voice" (some 3) (some 3) worldEmpty
      = Except.ok worldAfterVoice := by rfl
  have h := c10_main_skips_transcript_stages envTrivial "Voice" (some 3)
    (some 3) worldEmpty worldAfterVoice (by decide) hm
  exact ⟨by decide, hm, h.1, h.2.1⟩

end Khp
